import Mathlib

/-- A JSON value, the embedding of `serde_json::Value` as used by the SDK.
Numbers are restricted to naturals: every numeric literal the claims touch
is a non-negative integer. Objects keep their fields in insertion order;
`serde_json` (without the `preserve_order` feature) stores objects as a
`BTreeMap`, so parsing sorts keys — the parser below inserts sorted. -/
inductive Json where
  | null : Json
  | bool (b : Bool) : Json
  | num (n : Nat) : Json
  | str (s : String) : Json
  | arr (xs : List Json) : Json
  | obj (fields : List (String × Json)) : Json

def quoteCh : Char := Char.ofNat 34
def openBr : Char := Char.ofNat 123
def closeBr : Char := Char.ofNat 125

/-- Render a JSON string literal the way `serde_json` does (claims only use
strings without control characters or quotes, so only the two standard
escapes are handled). -/
def renderStr (s : String) : String :=
  String.mk (quoteCh :: (s.toList.flatMap fun c =>
    if c == quoteCh || c == '\\' then ['\\', c] else [c]) ++ [quoteCh])

mutual
/-- Compact rendering of a JSON value, mirroring `serde_json`'s `to_string`
(`Display` of `Value`): no spaces, strings quoted, object fields in stored
order. -/
def renderJson : Json → String
  | .null => "null"
  | .bool true => "true"
  | .bool false => "false"
  | .num n => toString n
  | .str s => renderStr s
  | .arr xs => "[" ++ renderArr xs ++ "]"
  | .obj fs => String.mk [openBr] ++ renderObj fs ++ String.mk [closeBr]

def renderArr : List Json → String
  | [] => ""
  | [x] => renderJson x
  | x :: xs => renderJson x ++ "," ++ renderArr xs

def renderObj : List (String × Json) → String
  | [] => ""
  | [(k, v)] => renderStr k ++ ":" ++ renderJson v
  | (k, v) :: fs => renderStr k ++ ":" ++ renderJson v ++ "," ++ renderObj fs
end

def isWs (c : Char) : Bool := c == ' ' || c == '\n' || c == '\t' || c == '\r'

def skipWs (cs : List Char) : List Char := cs.dropWhile isWs

def digitVal (c : Char) : Nat := c.toNat - 48

/-- Parse a JSON string body after the opening quote; handles the escapes
`\"` and `\\` (the only ones the SDK's inputs use). -/
def parseStrBody : List Char → Option (String × List Char)
  | [] => none
  | c :: rest =>
    if c == quoteCh then some ("", rest)
    else if c == '\\' then
      match rest with
      | [] => none
      | e :: rest' =>
        if e == quoteCh || e == '\\' then
          (parseStrBody rest').map fun (s, r) => (String.mk (e :: s.toList), r)
        else none
    else (parseStrBody rest).map fun (s, r) => (String.mk (c :: s.toList), r)

def natOfDigits (ds : List Char) : Nat := ds.foldl (fun n c => 10 * n + digitVal c) 0

mutual
/-- Fuel-driven recursive-descent JSON parser over a character list,
mirroring `serde_json`'s grammar on the fragment the SDK's streams use
(objects, arrays, strings, non-negative integers, literals). -/
def parseVal : Nat → List Char → Option (Json × List Char)
  | 0, _ => none
  | fuel + 1, cs =>
    match skipWs cs with
    | [] => none
    | c :: rest =>
      if c == quoteCh then (parseStrBody rest).map fun (s, r) => (Json.str s, r)
      else if c.isDigit then
        let ds := (c :: rest).takeWhile Char.isDigit
        some (Json.num (natOfDigits ds), (c :: rest).dropWhile Char.isDigit)
      else if c == 't' then
        match rest with
        | 'r' :: 'u' :: 'e' :: r => some (Json.bool true, r)
        | _ => none
      else if c == 'f' then
        match rest with
        | 'a' :: 'l' :: 's' :: 'e' :: r => some (Json.bool false, r)
        | _ => none
      else if c == 'n' then
        match rest with
        | 'u' :: 'l' :: 'l' :: r => some (Json.null, r)
        | _ => none
      else if c == '[' then
        match skipWs rest with
        | ']' :: r => some (Json.arr [], r)
        | cs' => (parseArrTail fuel cs').map fun (xs, r) => (Json.arr xs, r)
      else if c == openBr then
        match skipWs rest with
        | c' :: r =>
          if c' == closeBr then some (Json.obj [], r)
          else (parseObjTail fuel (c' :: r)).map fun (fs, r') => (Json.obj fs, r')
        | [] => none
      else none

def parseArrTail : Nat → List Char → Option (List Json × List Char)
  | 0, _ => none
  | fuel + 1, cs => do
    let (v, r) ← parseVal fuel cs
    match skipWs r with
    | ',' :: r' => (parseArrTail fuel r').map fun (xs, r'') => (v :: xs, r'')
    | ']' :: r' => some ([v], r')
    | _ => none

def parseObjTail : Nat → List Char → Option (List (String × Json) × List Char)
  | 0, _ => none
  | fuel + 1, cs =>
    match skipWs cs with
    | c :: rest =>
      if c == quoteCh then do
        let (k, r) ← parseStrBody rest
        match skipWs r with
        | ':' :: r' => do
          let (v, r'') ← parseVal fuel r'
          match skipWs r'' with
          | ',' :: r3 => (parseObjTail fuel r3).map fun (fs, r4) => ((k, v) :: fs, r4)
          | c4 :: r4 =>
            if c4 == closeBr then some ([(k, v)], r4) else none
          | [] => none
        | _ => none
      else none
    | [] => none
end

/-- Parse one NDJSON record: the whole line must be a single JSON value with
nothing but whitespace after it, as `serde_json::from_str` demands. -/
def parseRecord (s : String) : Option Json :=
  match parseVal (s.length + 1) s.toList with
  | some (j, rest) => if skipWs rest == [] then some j else none
  | none => none

/-- One decoded NDJSON event as the publish pipeline in `stream.rs` consumes
it: a `type` discriminator plus all remaining fields captured losslessly
(`#[serde(flatten)] data: Value`). This is the serde shape of `RawEvent` in
`types.rs` and the shape `publish` reads `event_type` / `data` from. -/
structure Event where
  event_type : String
  data : Json

/-- Lexicographic order on character lists (byte order on ASCII), the order
of Rust's `Ord for str` that `BTreeMap` keys use. -/
def ltChars : List Char → List Char → Bool
  | [], [] => false
  | [], _ :: _ => true
  | _ :: _, [] => false
  | a :: as_, b :: bs =>
    Nat.blt a.toNat b.toNat || (a == b && ltChars as_ bs)

def ltStr (a b : String) : Bool := ltChars a.toList b.toList

/-- Insert a field into a key-sorted field list, replacing an equal key —
`BTreeMap::insert`, which backs `serde_json::Value` objects. -/
def insertField (k : String) (v : Json) : List (String × Json) → List (String × Json)
  | [] => [(k, v)]
  | (k', v') :: fs =>
    if ltStr k k' then (k, v) :: (k', v') :: fs
    else if k == k' then (k, v) :: fs
    else (k', v') :: insertField k v fs

def sortFields (fs : List (String × Json)) : List (String × Json) :=
  fs.foldl (fun acc (kv : String × Json) => insertField kv.1 kv.2 acc) []

def lookupField (k : String) : List (String × Json) → Option Json
  | [] => none
  | (k', v) :: fs => if k' == k then some v else lookupField k fs

/-- serde deserialization of `Event`: the record must be a JSON object with a
string `type` field; every other field is flattened into `data` as a
`Value::Object` (key-sorted, as `serde_json` maps are `BTreeMap`s). -/
def eventOfJson : Json → Option Event
  | .obj fs =>
    match lookupField "type" fs with
    | some (.str t) => some ⟨t, .obj (sortFields (fs.filter fun kv => kv.1 ≠ "type"))⟩
    | _ => none
  | _ => none

/-- Check that `needle` begins `hay`. -/
def leadsList : List Char → List Char → Bool
  | [], _ => true
  | _ :: _, [] => false
  | a :: as_, b :: bs => a == b && leadsList as_ bs

/-- Substring containment, the semantics of Rust's `str::contains(&str)`. -/
def containsSub : List Char → List Char → Bool
  | hay, needle =>
    leadsList needle hay ||
      match hay with
      | [] => false
      | _ :: t => containsSub t needle

def strContains (hay needle : String) : Bool := containsSub hay.toList needle.toList

/-- The `ApiError` payload `stream.rs` builds for a non-success upload
response status. -/
structure ApiError where
  errors : List String
  details : Json
  status : Option Nat

/-- The `SurgeError` constructors the publish pipeline of `stream.rs`
actually produces (other variants of the SDK-wide error enum are never
built by the code under verification). -/
inductive SurgeError where
  | io (msg : String)
  | ignoreErr (msg : String)
  | json (msg : String)
  | api (e : ApiError)
  | eventError (e : Event)

/-- One item of the fallible NDJSON stream before `publish`'s classification
map: a decoded event, a JSON parse failure, or an input (transport/UTF-8)
failure — `Result<Event, FallibleNdjsonError>`. -/
inductive NdjsonItem where
  | ok (e : Event)
  | jsonError (msg : String)
  | inputError (msg : String)

def decodeLine (line : String) : NdjsonItem :=
  match parseRecord line with
  | some j =>
    match eventOfJson j with
    | some e => .ok e
    | none => .jsonError ("invalid event: " ++ line)
  | none => .jsonError ("invalid json: " ++ line)

/-- Split a character list at newlines; like `String::split('\n')`, the
result always has one more segment than there are newlines. -/
def splitNl : List Char → List (List Char)
  | [] => [[]]
  | c :: rest =>
    if c == '\n' then [] :: splitNl rest
    else
      match splitNl rest with
      | [] => [[c]]
      | l :: ls => (c :: l) :: ls

/-- Split response text into NDJSON records: a record per newline-terminated
line plus a final unterminated remainder, with empty records dropped
(`EmptyLineHandling::IgnoreEmpty`). -/
def ndjsonRecords (text : String) : List String :=
  ((splitNl text.toList).filter (· ≠ [])).map String.mk

/-- The classification map `publish` applies to each NDJSON item
(stream.rs lines 449-471), including the error-marker check on the payload's
`to_string()` rendering. -/
def classifyItem (i : NdjsonItem) : Except SurgeError Event :=
  match i with
  | .ok event =>
    if event.event_type == "error" || strContains (renderJson event.data) "error" then
      .error (.eventError event)
    else if event.event_type == "info" then
      .ok event
    else
      .ok event
  | .jsonError e => .error (.json e)
  | .inputError e => .error (.io e)

/-- The event sequence `publish` returns for a given response body text
(UTF-8 decoding elided: every claim input is ASCII, where the decode is the
identity). -/
def publishItems (text : String) : List (Except SurgeError Event) :=
  (ndjsonRecords text).map (fun l => classifyItem (decodeLine l))

/-- Structure `ProgressData` from `types.rs`: the typed payload of a `"progress"`
event. (`end` is a Lean keyword, hence the field name `endFlag`.) -/
structure ProgressData where
  id : String
  written : Nat
  total : Nat
  endFlag : Option Bool

/-- Parse a decimal natural from a string, the behavior of `u64::from_str`
on the digit strings the server sends (empty or non-digit input fails). -/
def strToNat (s : String) : Option Nat :=
  if s.toList ≠ [] && s.toList.all Char.isDigit then
    some (natOfDigits s.toList)
  else none

/-- Function `deserialize_written` from `types.rs`: accept `written` as either a
numeric-string (parsed with `u64::from_str`) or a number. -/
def deserialize_written : Json → Option Nat
  | .str s => strToNat s
  | .num n => some n
  | _ => none

def parseOptBool : Option Json → Option (Option Bool)
  | none => some none
  | some .null => some none
  | some (.bool b) => some (some b)
  | some _ => none

/-- serde deserialization of `ProgressData` from a payload `Value`
(`serde_json::from_value::<ProgressData>` in the `"progress"` arm of
`From<RawEvent> for Event`): `id`, `written` (via `deserialize_written`) and
`total` are required, `end` is optional, unknown fields are ignored. -/
def progressOfJson : Json → Option ProgressData
  | .obj fs => do
    let id ← match lookupField "id" fs with
      | some (.str s) => some s
      | _ => none
    let written ← match lookupField "written" fs with
      | some v => deserialize_written v
      | none => none
    let total ← match lookupField "total" fs with
      | some (.num n) => some n
      | _ => none
    let endFlag ← parseOptBool (lookupField "end" fs)
    some ⟨id, written, total, endFlag⟩
  | _ => none

/-- The exact response body of claim C3 (two progress records separated by a
blank line, with `written` string-encoded in the first and numeric in the
second). -/
def c3Input : String :=
  "\x7b\"type\":\"progress\",\"id\":\"x\",\"written\":\"50\",\"total\":100\x7d\n\n" ++
  "\x7b\"type\":\"progress\",\"id\":\"x\",\"written\":75,\"total\":100\x7d\n"

/-- Kind of a filesystem entry: a regular file, or anything else
(directory, socket, …) — `path.is_file()` only distinguishes these two. -/
inductive FileKind where
  | regular
  | dir
  deriving DecidableEq

/-- The stat data of a filesystem entry: what `fs::metadata` reports.
`modified` is seconds since the Unix epoch, `none` when the platform cannot
report a modification time. -/
structure Stat where
  kind : FileKind
  size : Nat
  mode : Nat
  modified : Option Nat
  deriving DecidableEq

/-- One traversal entry: an absolute path (as components) plus its stat
outcome; `stat = none` models an entry that cannot be stat'ed (unreadable).
The model is race-free: `is_file`, `fs::metadata` and `File::open` all see
this one stat outcome. -/
structure FsEntry where
  path : List String
  stat : Option Stat
  deriving DecidableEq

/-- Rust `path.is_file()`: stat the path and check for a regular file; a failed
stat yields `false`. -/
def is_file (e : FsEntry) : Bool :=
  match e.stat with
  | some st => st.kind == .regular
  | none => false

/-- Rust `fs::metadata(path)`: the stat data, or an I/O error for an unreadable
entry. -/
def fs_metadata (e : FsEntry) : Except SurgeError Stat :=
  match e.stat with
  | some st => .ok st
  | none => .error (.io "metadata error")

/-- The entries the parallel walker's closure forwards into the channel
(stream.rs lines 90-110): `Ok` entries that the ignore matcher does not
exclude; walker errors are logged and dropped. -/
def receivedEntries (excl : List String → Bool) (walk : List (Except String FsEntry)) :
    List FsEntry :=
  walk.filterMap fun r =>
    match r with
    | .ok e => if excl e.path then none else some e
    | .error _ => none

/-- Metadata about a project directory (stream.rs `StreamMetadata`). -/
structure StreamMetadata where
  file_count : Nat
  project_size : Nat
  deriving DecidableEq

/-- The accumulation loop of `calculate_metadata` over the received entries
(stream.rs lines 112-125): count regular files and sum their sizes,
propagating any `fs::metadata` failure. -/
def metaFold : List FsEntry → Nat → Nat → Except SurgeError (Nat × Nat)
  | [], c, s => .ok (c, s)
  | e :: rest, c, s =>
    if is_file e then
      match fs_metadata e with
      | .ok st => metaFold rest (c + 1) (s + st.size)
      | .error err => .error err
    else metaFold rest c s

/-- Model of `calculate_metadata`, given the entries received from the walker in the
order the channel delivered them. -/
def calculate_metadata (received : List FsEntry) : Except SurgeError StreamMetadata :=
  (metaFold received 0 0).map fun cs => ⟨cs.1, cs.2⟩

/-- The regular, non-excluded files among the walk results. -/
def includedFiles (excl : List String → Bool) (walk : List (Except String FsEntry)) :
    List FsEntry :=
  (receivedEntries excl walk).filter is_file

def sizeOfEntry (e : FsEntry) : Nat :=
  match e.stat with
  | some st => st.size
  | none => 0

def totalSize (l : List FsEntry) : Nat := (l.map sizeOfEntry).sum

/-- Check that the first list begins the second, component by component
(`Path::strip_prefix` succeeds exactly when this holds). -/
def startsWith : List String → List String → Bool
  | [], _ => true
  | _ :: _, [] => false
  | a :: as_, b :: bs => a == b && startsWith as_ bs

/-- A tar entry header as `TarGzStream::new` fills it in
(stream.rs lines 230-240). -/
structure TarHeader where
  size : Nat
  mode : Nat
  mtime : Nat
  deriving DecidableEq

/-- Fill a tar header from a file's stat data, exactly as the source does:
the actual size, the constant mode `0o644`, and the modification time in
seconds since the epoch with `0` when unavailable. -/
def mkHeader (st : Stat) : TarHeader :=
  { size := st.size
    mode := 0o644
    mtime := st.modified.getD 0 }

/-- One entry of the produced archive: its path inside the tarball, its
header, and the byte length of the appended file data. -/
structure TarEntry where
  path : List String
  header : TarHeader
  byteLen : Nat
  deriving DecidableEq

/-- Rust `project_path.file_name().and_then(to_str).unwrap_or("project")`. -/
def dirNameOf (projectPath : List String) : String :=
  projectPath.getLast?.getD "project"

/-- The archive-construction loop of `TarGzStream::new`
(stream.rs lines 186-247): walk sequentially; fail on a walker error; skip
excluded and non-file entries; for each included file, strip the project
parent from its path, take the resulting path's file name, and append one
entry at `dir_name/file_name` with the header built by `mkHeader`. -/
def tarBuild (projectPath : List String) (excl : List String → Bool) :
    List (Except String FsEntry) → Except SurgeError (List TarEntry)
  | [] => .ok []
  | .error msg :: _ => .error (.ignoreErr msg)
  | .ok e :: rest =>
    if excl e.path || !is_file e then
      tarBuild projectPath excl rest
    else
      let parent := projectPath.dropLast
      if !startsWith parent e.path then
        .error (.io "strip prefix error")
      else
        let rel := e.path.drop parent.length
        match rel.getLast? with
        | none => .error (.io "No file name for path")
        | some fileName =>
          match fs_metadata e with
          | .error err => .error err
          | .ok st =>
            (tarBuild projectPath excl rest).map fun entries =>
              ⟨[dirNameOf projectPath, fileName], mkHeader st, st.size⟩ :: entries

/-- Model of `matched_path_or_any_parents` of the `ignore` crate, modelled for the
patterns the claims use: a non-empty, slash-free, wildcard-free pattern
excludes any entry whose own name or any ancestor directory's name equals
the pattern (paths are given relative to the matcher's root). -/
def literalExcluded (pats : List String) (relPath : List String) : Bool :=
  relPath.any fun comp => pats.any fun p => p ≠ "" && p == comp

/-- Rust `str::lines`: split at newlines, with no final empty piece for a
trailing newline. -/
def linesOf (s : String) : List String :=
  let parts := splitNl s.toList
  (match parts.getLast? with
    | some [] => parts.dropLast
    | _ => parts).map String.mk

/-- A project directory: its name and its regular files as (relative path,
content) pairs. -/
structure Project where
  name : String
  files : List (List String × String)

def findFile (p : List String) : List (List String × String) → Option String
  | [] => none
  | (q, content) :: rest => if q == p then some content else findFile p rest

/-- Model of `build_custom_gitignore` (stream.rs lines 628-647): the patterns are the
lines of the project-root `.surgeignore` when that file exists, else none. -/
def surgePatterns (proj : Project) : List String :=
  match findFile [".surgeignore"] proj.files with
  | some content => linesOf content
  | none => []

/-- The exclusion predicate `calculate_metadata` and `TarGzStream::new`
share: match the `.surgeignore` patterns against the path relative to the
project root. -/
def projExcl (proj : Project) (path : List String) : Bool :=
  literalExcluded (surgePatterns proj) (path.drop 1)

/-- The walk results for a project: the root directory entry first, then one
`Ok` entry per file (sizes in bytes; contents are ASCII in every claim). -/
def projWalk (proj : Project) : List (Except String FsEntry) :=
  .ok ⟨[proj.name], some ⟨.dir, 0, 0o755, none⟩⟩ ::
    proj.files.map fun pc =>
      .ok ⟨proj.name :: pc.1, some ⟨.regular, pc.2.length, 0o644, none⟩⟩

/-- Model of `calculate_metadata` run on a whole project: build the `.surgeignore`
matcher, walk, filter, and fold. -/
def calculate_metadata_project (proj : Project) : Except SurgeError StreamMetadata :=
  calculate_metadata (receivedEntries (projExcl proj) (projWalk proj))

/-- The archive produced for a whole project. -/
def tarBuild_project (proj : Project) : Except SurgeError (List TarEntry) :=
  tarBuild [proj.name] (projExcl proj) (projWalk proj)

/-- The project of claim C6: `a.txt` = "hi", `.surgeignore` = "b.txt",
`b.txt` = "bye". -/
def c6Project : Project :=
  { name := "proj"
    files := [(["a.txt"], "hi"), ([".surgeignore"], "b.txt"), (["b.txt"], "bye")] }

/-- An HTTP response status: numeric code plus canonical reason phrase
(`Display` of `http::StatusCode` renders both, e.g. "403 Forbidden"). -/
structure StatusCode where
  code : Nat
  canonicalReason : String
  deriving DecidableEq

def statusDisplay (st : StatusCode) : String :=
  toString st.code ++ " " ++ st.canonicalReason

/-- Rust `StatusCode::is_success`: code in 200..=299. -/
def isSuccessStatus (st : StatusCode) : Bool :=
  200 ≤ st.code && st.code < 300

/-- The error `publish` builds for a non-success upload response
(stream.rs lines 420-429): a fixed message naming the status, empty
details, and the numeric code. The response body text is read and logged
but does not reach the error value, which is why `body` is unused. -/
def publishFailure (st : StatusCode) (_body : String) : SurgeError :=
  .api ⟨["Request failed with status: " ++ statusDisplay st], .obj [], some st.code⟩

/-- The status check `publish` performs before streaming events: success
statuses pass, any other status becomes a terminal `Api` error and no event
sequence is produced. -/
def publishCheckStatus (st : StatusCode) (body : String) : Except SurgeError Unit :=
  if isSuccessStatus st then .ok () else .error (publishFailure st body)

/-- Authentication credentials (`types.rs` `Auth`). -/
inductive Auth where
  | token (t : String)
  | userPass (username : String) (password : String)
  deriving DecidableEq

/-- The basic-auth pair a request ends up carrying:
`RequestBuilder::basic_auth(username, password)`. -/
structure BasicAuth where
  username : String
  password : Option String
  deriving DecidableEq

/-- Model of `SurgeSdk::apply_auth` (sdk.rs lines 874-879). -/
def apply_auth : Auth → BasicAuth
  | .token t => ⟨"token", some t⟩
  | .userPass u p => ⟨u, some p⟩

/-- Outcome of the spawned archive-construction task, as `poll` on its
`JoinHandle` reports it: clean completion, completion with a `SurgeError`,
or a panic (a `JoinError`). -/
inductive TaskOutcome where
  | success
  | failure (e : SurgeError)
  | panicked (msg : String)

/-- The archive task as the polling loop sees it: some number of pending
polls, then its outcome. -/
structure TaskState where
  pendings : Nat
  outcome : TaskOutcome

/-- What one poll of the duplex-stream reader can produce. -/
inductive ReaderPoll where
  | pending
  | chunk (len : Nat)
  | readErr (msg : String)

/-- The mutable state of a `TarGzStream`: the `done` flag, the optional
join handle, and the reader's remaining behavior (its list exhausted means
end of stream). -/
structure TarStreamState where
  done : Bool
  task : Option TaskState
  reader : List ReaderPoll

/-- Result of `poll_next`: ready with an optional item, or pending. -/
inductive StreamPoll where
  | ready (item : Option (Except SurgeError Nat))
  | pending

/-- The reader-polling half of `TarGzStream::poll_next`
(stream.rs lines 307-327): a chunk is passed through, a read error is
returned after setting `done`, end of stream sets `done`. -/
def pollReader (s : TarStreamState) : StreamPoll × TarStreamState :=
  match s.reader with
  | [] => (.ready none, { s with done := true })
  | .pending :: rest => (.pending, { s with reader := rest })
  | .chunk n :: rest => (.ready (some (.ok n)), { s with reader := rest })
  | .readErr m :: rest =>
      (.ready (some (.error (.io m))), { s with reader := rest, done := true })

/-- Model of `TarGzStream::poll_next` (stream.rs lines 274-328): short-circuit on
`done`; otherwise drive the archive task to completion first (its failure or
panic is the terminal item), then poll the reader. -/
def poll_next (s : TarStreamState) : StreamPoll × TarStreamState :=
  if s.done then (.ready none, s)
  else
    match s.task with
    | some t =>
      match t.pendings with
      | n + 1 => (.pending, { s with task := some ⟨n, t.outcome⟩ })
      | 0 =>
        match t.outcome with
        | .success => pollReader { s with task := none }
        | .failure e =>
            (.ready (some (.error e)), { s with task := none, done := true })
        | .panicked m =>
            (.ready (some (.error (.io m))), { s with task := none, done := true })
    | none => pollReader s

/-- The state after `n` further calls to `poll_next`. -/
def pollIter : Nat → TarStreamState → TarStreamState
  | 0, s => s
  | n + 1, s => pollIter n (poll_next s).2

def w1 : FsEntry := ⟨["p", "a.txt"], some ⟨.regular, 2, 420, none⟩⟩
def w2 : FsEntry := ⟨["p", "b.txt"], some ⟨.regular, 3, 420, none⟩⟩
def walkW : List (Except String FsEntry) := [.ok ⟨["p"], some ⟨.dir, 0, 493, none⟩⟩, .ok w1, .ok w2]
def exclW : List String → Bool := fun _ => false
/-- A walk result that is both error-free and stat-able. -/
def readable : Except String FsEntry → Bool
  | .ok e => e.stat.isSome
  | .error _ => false
/-- The name a file gets inside the archive: the last component of its path
after the project's parent directory is stripped. -/
def tarPathName (P : List String) (e : FsEntry) : String :=
  ((e.path.drop P.dropLast.length).getLast?).getD ""

def mtimeOf (e : FsEntry) : Nat :=
  match e.stat with
  | some st => st.modified.getD 0
  | none => 0

/-- The archive entry `TarGzStream::new` produces for one included file. -/
def entryFor (P : List String) (e : FsEntry) : TarEntry :=
  ⟨[dirNameOf P, tarPathName P e], ⟨sizeOfEntry e, 0o644, mtimeOf e⟩, sizeOfEntry e⟩

/-- The walk of the single-file project `proj` whose only file lives in the
subdirectory `sub`. -/
def c2Walk : List (Except String FsEntry) :=
  [.ok ⟨["proj", "sub", "a.txt"], some ⟨.regular, 3, 493, some 10⟩⟩]

/-- A stream whose archive task has already failed while its reader still
holds an undelivered chunk. -/
def sErr : TarStreamState := ⟨false, some ⟨0, .failure (.io "boom")⟩, [.chunk 1]⟩

example : renderJson (.obj [("id", .str "x"), ("total", .num 100)]) =
    "\x7b\"id\":\"x\",\"total\":100\x7d" := by rfl
example : parseRecord "\x7b\"type\":\"progress\",\"id\":\"x\",\"written\":\"50\",\"total\":100\x7d" =
    some (.obj [("type", .str "progress"), ("id", .str "x"),
      ("written", .str "50"), ("total", .num 100)]) := by rfl
example : parseRecord "" = none := by rfl
example : parseRecord "\x7b\"a\":[1,true,null]\x7d" =
    some (.obj [("a", .arr [.num 1, .bool true, .null])]) := by rfl
example : strContains "an error here" "error" = true := by rfl
example : strContains "progress" "error" = false := by rfl
example : strContains "" "" = true := by rfl
example : (publishItems c3Input).length = 2 := by rfl
example : publishItems c3Input =
    [.ok ⟨"progress", .obj [("id", .str "x"), ("total", .num 100), ("written", .str "50")]⟩,
     .ok ⟨"progress", .obj [("id", .str "x"), ("total", .num 100), ("written", .num 75)]⟩] := by rfl
example : progressOfJson (.obj [("id", .str "x"), ("total", .num 100), ("written", .str "50")]) =
    some ⟨"x", 50, 100, none⟩ := by rfl
example : calculate_metadata_project c6Project = .ok ⟨2, 7⟩ := by rfl
example : (tarBuild_project c6Project).map (List.map TarEntry.path) =
    .ok [[ "proj", "a.txt"], ["proj", ".surgeignore"]] := by rfl

theorem metaFold_eq (l : List FsEntry) (c s : Nat) :
    metaFold l c s =
      .ok (c + (l.filter is_file).length, s + totalSize (l.filter is_file)) := by
  induction l generalizing c s with
  | nil => simp [metaFold, totalSize]
  | cons e rest ih =>
    by_cases h : is_file e = true
    · obtain ⟨st, hstat⟩ : ∃ st, e.stat = some st := by
        cases hstat : e.stat with
        | none => simp [is_file, hstat] at h
        | some st => exact ⟨st, rfl⟩
      have hsz : sizeOfEntry e = st.size := by simp [sizeOfEntry, hstat]
      simp only [metaFold, h, if_true, fs_metadata, hstat, ih,
        List.filter_cons_of_pos, totalSize, List.map_cons, List.sum_cons, hsz,
        List.length_cons, Except.ok.injEq, Prod.mk.injEq]
      omega
    · have h' : is_file e = false := by simpa using h
      simp [metaFold, h', List.filter_cons, ih]

/-- C1: For every project tree and ignore rule set, whatever order the
parallel traversal delivers the non-excluded entries in, `calculate_metadata`
returns `file_count` = the number of non-excluded regular files and
`project_size` = their total byte size. -/
theorem calculate_metadata_order_independent
    (walk : List (Except String FsEntry)) (excl : List String → Bool)
    (l : List FsEntry) (h : l.Perm (receivedEntries excl walk)) :
    calculate_metadata l =
      .ok ⟨(includedFiles excl walk).length, totalSize (includedFiles excl walk)⟩ := by
  have hfilter : (l.filter is_file).Perm (includedFiles excl walk) := h.filter _
  have hlen := hfilter.length_eq
  have hsum : totalSize (l.filter is_file) = totalSize (includedFiles excl walk) :=
    (hfilter.map sizeOfEntry).sum_eq
  simp only [calculate_metadata, metaFold_eq, Nat.zero_add]
  rw [hlen, hsum]
  rfl

/-- Witness for C1: a two-file tree delivered in reversed order still counts
2 files and 5 bytes. -/
theorem calculate_metadata_order_independent_witness :
    calculate_metadata [w2, w1, ⟨["p"], some ⟨.dir, 0, 493, none⟩⟩] = .ok ⟨2, 5⟩ := by
  have := calculate_metadata_order_independent walkW exclW
    [w2, w1, ⟨["p"], some ⟨.dir, 0, 493, none⟩⟩] (by decide)
  simpa using this

/-- C5: entries that error during traversal, and entries that cannot be
stat'ed, are skipped: `calculate_metadata` still returns a successful
`StreamMetadata`, and its value is the one computed from the readable
entries alone. -/
theorem scan_skips_unreadable
    (walk : List (Except String FsEntry)) (excl : List String → Bool) :
    calculate_metadata (receivedEntries excl walk) =
        .ok ⟨(includedFiles excl walk).length, totalSize (includedFiles excl walk)⟩ ∧
      includedFiles excl walk = includedFiles excl (walk.filter readable) := by
  constructor
  · have hfilter : ((receivedEntries excl walk).filter is_file).Perm (includedFiles excl walk) :=
      List.Perm.refl _
    simp only [calculate_metadata, metaFold_eq, Nat.zero_add]
    rfl
  · induction walk with
    | nil => rfl
    | cons r rest ih =>
      cases r with
      | error msg => simpa [includedFiles, receivedEntries, readable] using ih
      | ok e =>
        cases hstat : e.stat with
        | none =>
          have hf : is_file e = false := by simp [is_file, hstat]
          by_cases hx : excl e.path <;>
            simpa [includedFiles, receivedEntries, readable, hstat, hx, hf,
              List.filter_cons] using ih
        | some st =>
          simp only [includedFiles, receivedEntries] at ih
          by_cases hx : excl e.path <;>
            simp [includedFiles, receivedEntries, readable, hstat, hx,
              List.filter_cons, ih]

/-- C6 counterexample: on the project `{a.txt: "hi", .surgeignore: "b.txt",
b.txt: "bye"}` the code counts the `.surgeignore` file itself, so metadata
is `{file_count: 2, project_size: 7}` — not `{1, 2}` — and the archive
contains `.surgeignore` besides `a.txt`. -/
theorem c6_scenario_counterexample :
    calculate_metadata_project c6Project = .ok ⟨2, 7⟩ ∧
      calculate_metadata_project c6Project ≠ .ok ⟨1, 2⟩ ∧
      (tarBuild_project c6Project).map (List.map TarEntry.path) ≠
        .ok [["proj", "a.txt"]] := by
  refine ⟨rfl, fun h => ?_, fun h => ?_⟩
  · rw [show calculate_metadata_project c6Project = .ok ⟨2, 7⟩ from rfl] at h
    injection h with h'
    injection h' with h1 h2
    exact absurd h1 (by decide)
  · rw [show (tarBuild_project c6Project).map (List.map TarEntry.path) =
      .ok [["proj", "a.txt"], ["proj", ".surgeignore"]] from rfl] at h
    injection h with h'
    exact absurd h' (by decide)

/-- C6 amended: on that project, metadata is `{file_count: 2,
project_size: 7}` (the non-excluded regular files are `a.txt` and
`.surgeignore` itself), and the archive contains exactly the entries for
`a.txt` and `.surgeignore`; `b.txt` appears nowhere. -/
theorem c6_scenario :
    calculate_metadata_project c6Project = .ok ⟨2, 7⟩ ∧
      (tarBuild_project c6Project).map (List.map TarEntry.path) =
        .ok [["proj", "a.txt"], ["proj", ".surgeignore"]] ∧
      (tarBuild_project c6Project).map
          (List.all · fun entry => entry.path != ["proj", "b.txt"]) =
        .ok true := by
  exact ⟨rfl, rfl, rfl⟩

/-- C3: on the exact response bytes
`{"type":"progress","id":"x","written":"50","total":100}\n\n`
`{"type":"progress","id":"x","written":75,"total":100}\n`,
`publish` yields exactly two successful progress events — the blank line
produces no item — and classifying their payloads (`ProgressData` with
`deserialize_written`) gives `written` 50 and 75: the numeric-string and the
numeric encodings are both accepted. -/
theorem ndjson_progress_decoding :
    publishItems c3Input =
        [.ok ⟨"progress", .obj [("id", .str "x"), ("total", .num 100), ("written", .str "50")]⟩,
         .ok ⟨"progress", .obj [("id", .str "x"), ("total", .num 100), ("written", .num 75)]⟩] ∧
      progressOfJson (.obj [("id", .str "x"), ("total", .num 100), ("written", .str "50")]) =
        some ⟨"x", 50, 100, none⟩ ∧
      progressOfJson (.obj [("id", .str "x"), ("total", .num 100), ("written", .num 75)]) =
        some ⟨"x", 75, 100, none⟩ ∧
      (ndjsonRecords c3Input).length = 2 :=
  ⟨rfl, rfl, rfl, rfl⟩

/-- C4: a successfully decoded event whose `type` is the literal `"error"`,
or whose payload's `to_string()` rendering contains `"error"`, is surfaced
by the publish map as an error result wrapping that event, never as a
successful item. -/
theorem error_events_surfaced (e : Event)
    (h : e.event_type = "error" ∨ strContains (renderJson e.data) "error" = true) :
    classifyItem (.ok e) = .error (.eventError e) := by
  have hc : (e.event_type == "error" || strContains (renderJson e.data) "error") = true := by
    rcases h with h | h
    · simp [h]
    · simp [h]
  simp [classifyItem, hc]

/-- Witness for C4: a literal `{"type":"error"}` event is wrapped in an
error result. -/
theorem error_events_surfaced_witness :
    classifyItem (.ok ⟨"error", .obj []⟩) = .error (.eventError ⟨"error", .obj []⟩) :=
  error_events_surfaced ⟨"error", .obj []⟩ (Or.inl rfl)

theorem startsWith_append (Q t : List String) : startsWith Q (Q ++ t) = true := by
  induction Q with
  | nil => rfl
  | cons a as_ ih => simp [startsWith, ih]

theorem tarBuild_eq_map (P : List String) (excl : List String → Bool)
    (walk : List (Except String FsEntry)) (hP : P ≠ [])
    (hok : ∀ r ∈ walk, ∃ e suf, r = .ok e ∧ e.path = P ++ suf) :
    tarBuild P excl walk = .ok ((includedFiles excl walk).map (entryFor P)) := by
  obtain ⟨Q, a, hPc⟩ := (List.eq_nil_or_concat P).resolve_left hP
  have hP2 : P = Q ++ [a] := by simpa [List.concat_eq_append] using hPc
  subst hP2
  induction walk with
  | nil => simp [tarBuild, includedFiles, receivedEntries]
  | cons r rest ih =>
    obtain ⟨e, suf, rfl, hpath⟩ := hok _ (List.mem_cons_self _ _)
    have ih' := ih fun r hr => hok r (List.mem_cons_of_mem _ hr)
    by_cases hx : excl e.path
    · have hin : includedFiles excl (.ok e :: rest) = includedFiles excl rest := by
        simp [includedFiles, receivedEntries, hx]
      simp only [tarBuild, hx, Bool.true_or, if_true, hin, ih']
    · by_cases hf : is_file e
      · obtain ⟨st, hstat⟩ : ∃ st, e.stat = some st := by
          cases hstat : e.stat with
          | none => simp [is_file, hstat] at hf
          | some st => exact ⟨st, rfl⟩
        have hpar : startsWith Q e.path = true := by
          rw [hpath, List.append_assoc]
          exact startsWith_append Q ([a] ++ suf)
        have hrel : e.path.drop Q.length = a :: suf := by
          rw [hpath, List.append_assoc, List.drop_left, List.singleton_append]
        obtain ⟨fn, hfn⟩ : ∃ fn, (a :: suf).getLast? = some fn := by
          cases hl : (a :: suf).getLast? with
          | none => exact absurd (List.getLast?_eq_none_iff.mp hl) (by simp)
          | some fn => exact ⟨fn, rfl⟩
        have hin : includedFiles excl (.ok e :: rest) = e :: includedFiles excl rest := by
          simp [includedFiles, receivedEntries, hx, List.filter_cons, hf]
        simp [tarBuild, hx, hf, List.dropLast_concat, hpar, hrel, hfn, fs_metadata,
          hstat, ih', hin, entryFor, tarPathName, mkHeader, sizeOfEntry, mtimeOf,
          Except.map]
      · have hin : includedFiles excl (.ok e :: rest) = includedFiles excl rest := by
          simp [includedFiles, receivedEntries, hx, List.filter_cons, hf]
        have hf' : is_file e = false := by simpa using hf
        simp only [tarBuild, hx, hf', Bool.false_or, Bool.not_false, if_true, hin, ih']

theorem tarPathName_eq_basename (P : List String) (e : FsEntry) (hP : P ≠ [])
    (suf : List String) (hpath : e.path = P ++ suf) :
    tarPathName P e = (e.path.getLast?).getD "" := by
  obtain ⟨Q, a, hPc⟩ := (List.eq_nil_or_concat P).resolve_left hP
  have hP2 : P = Q ++ [a] := by simpa [List.concat_eq_append] using hPc
  subst hP2
  have hrel : e.path.drop Q.length = a :: suf := by
    rw [hpath, List.append_assoc, List.drop_left, List.singleton_append]
  have hlast : e.path.getLast? = (a :: suf).getLast? := by
    rw [hpath, List.append_assoc, List.singleton_append,
      List.getLast?_append_cons]
  rw [tarPathName, List.dropLast_concat, hrel, hlast]

/-- C2 counterexample: for the project `proj` containing the single file
`sub/a.txt`, the archive's one entry has path `proj/a.txt`, not the claimed
`proj/sub/a.txt` — subdirectory components are dropped. -/
theorem c2_subdir_counterexample :
    (tarBuild ["proj"] (fun _ => false) c2Walk).map (List.map TarEntry.path) =
        .ok [["proj", "a.txt"]] ∧
      (tarBuild ["proj"] (fun _ => false) c2Walk).map (List.map TarEntry.path) ≠
        .ok [["proj", "sub", "a.txt"]] := by
  refine ⟨rfl, fun h => ?_⟩
  rw [show (tarBuild ["proj"] (fun _ => false) c2Walk).map (List.map TarEntry.path) =
    .ok [["proj", "a.txt"]] from rfl] at h
  injection h with h'
  exact absurd h' (by decide)

/-- C2 amended: for every project and ignore rule set, the archive contains
exactly one entry per included regular file (and none for an excluded one),
with byte length equal to the file's size — but the entry's path is the
project directory name joined with the file's base name alone, so
subdirectory components are not preserved. -/
theorem tarBuild_roundtrip (P : List String) (excl : List String → Bool)
    (walk : List (Except String FsEntry)) (hP : P ≠ [])
    (hok : ∀ r ∈ walk, ∃ e suf, r = .ok e ∧ e.path = P ++ suf) :
    tarBuild P excl walk = .ok ((includedFiles excl walk).map (entryFor P)) ∧
      ∀ e ∈ includedFiles excl walk,
        (entryFor P e).path = [dirNameOf P, (e.path.getLast?).getD ""] ∧
          (entryFor P e).byteLen = sizeOfEntry e := by
  refine ⟨tarBuild_eq_map P excl walk hP hok, fun e he => ?_⟩
  have hmem : Except.ok e ∈ walk := by
    have h1 : e ∈ receivedEntries excl walk := List.mem_of_mem_filter he
    simp only [receivedEntries, List.mem_filterMap] at h1
    obtain ⟨r, hr, hre⟩ := h1
    cases r with
    | ok e' =>
      by_cases hx : excl e'.path
      · simp [hx] at hre
      · simp [hx] at hre
        exact hre ▸ hr
    | error m => simp at hre
  obtain ⟨e', suf, he', hpath⟩ := hok _ hmem
  have : e' = e := by injection he'.symm
  subst this
  exact ⟨by rw [entryFor, tarPathName_eq_basename P e' hP suf hpath], rfl⟩

/-- Witness for C2's amended claim: the single-file project archive. -/
theorem tarBuild_roundtrip_witness :
    tarBuild ["proj"] (fun _ => false) c2Walk =
        .ok ((includedFiles (fun _ => false) c2Walk).map (entryFor ["proj"])) ∧
      tarBuild ["proj"] (fun _ => false) c2Walk =
        .ok [⟨["proj", "a.txt"], ⟨3, 420, 10⟩, 3⟩] := by
  have h := tarBuild_roundtrip ["proj"] (fun _ => false) c2Walk (by decide)
    (fun r hr => by
      simp only [c2Walk, List.mem_singleton] at hr
      exact ⟨⟨["proj", "sub", "a.txt"], some ⟨.regular, 3, 493, some 10⟩⟩,
        ["sub", "a.txt"], hr, rfl⟩)
  exact ⟨h.1, rfl⟩

/-- C7 counterexample: for a file whose permission bits are `0o755`, the tar
header records mode `0o644`, not the file's actual bits — the mode is
hardcoded. -/
theorem header_mode_counterexample :
    (mkHeader ⟨.regular, 5, 0o755, some 99⟩).mode = 0o644 ∧ (0o644 : Nat) ≠ 0o755 :=
  ⟨rfl, by decide⟩

/-- C7 amended: for every included file, the tar header records the file's
actual size and its actual modification time (seconds since the epoch, 0
when unavailable), but always the constant mode `0o644` regardless of the
file's permission bits. -/
theorem header_fields (st : Stat) :
    mkHeader st = ⟨st.size, 0o644, st.modified.getD 0⟩ := rfl

/-- C8 counterexample: the error `publish` returns for a failed upload is
identical for two different response bodies, so the response body text is
not carried in the error (it is only logged). -/
theorem publish_failure_body_counterexample :
    publishCheckStatus ⟨500, "Internal Server Error"⟩ "boom" =
        publishCheckStatus ⟨500, "Internal Server Error"⟩ "zap" ∧
      publishCheckStatus ⟨500, "Internal Server Error"⟩ "boom" =
        .error (.api ⟨["Request failed with status: 500 Internal Server Error"],
          .obj [], some 500⟩) :=
  ⟨rfl, rfl⟩

/-- C8 amended: every non-success response status makes `publish` return a
terminal `Api` error carrying the numeric status code (also rendered in the
message); no event sequence is produced. The response body is read but not
included in the error. -/
theorem publish_failure_status (st : StatusCode) (body : String)
    (h : isSuccessStatus st = false) :
    publishCheckStatus st body =
      .error (.api ⟨["Request failed with status: " ++ statusDisplay st],
        .obj [], some st.code⟩) := by
  simp [publishCheckStatus, h, publishFailure]

/-- Witness for C8's amended claim: a 404 with body "nope". -/
theorem publish_failure_status_witness :
    publishCheckStatus ⟨404, "Not Found"⟩ "nope" =
      .error (.api ⟨["Request failed with status: " ++ statusDisplay ⟨404, "Not Found"⟩],
        .obj [], some 404⟩) :=
  publish_failure_status ⟨404, "Not Found"⟩ "nope" rfl

/-- C9 counterexample: a token credential is sent with the literal string
"token" as the username and the token itself as the password — the token is
not in the username position, and the password is neither empty nor a
placeholder but the secret itself. -/
theorem apply_auth_counterexample :
    apply_auth (.token "abc123") = ⟨"token", some "abc123"⟩ ∧
      ("token" : String) ≠ "abc123" ∧
      (some "abc123" : Option String) ≠ some "" :=
  ⟨rfl, by decide, by decide⟩

/-- C9 amended: authentication follows the HTTP basic-auth convention with a
bearer token sent as the password under the fixed placeholder username
"token", and a username/password credential sent as that pair. -/
theorem apply_auth_convention (t u p : String) :
    apply_auth (.token t) = ⟨"token", some t⟩ ∧
      apply_auth (.userPass u p) = ⟨u, some p⟩ :=
  ⟨rfl, rfl⟩

theorem poll_next_done (s : TarStreamState) (h : s.done = true) :
    poll_next s = (.ready none, s) := by
  simp [poll_next, h]

theorem pollIter_done (n : Nat) (s : TarStreamState) (h : s.done = true) :
    pollIter n s = s := by
  induction n with
  | zero => rfl
  | succ n ih => rw [pollIter, poll_next_done s h, ih]

theorem poll_next_error_done (s s' : TarStreamState) (e : SurgeError)
    (h : poll_next s = (.ready (some (.error e)), s')) : s'.done = true := by
  unfold poll_next pollReader at h
  repeat' split at h
  all_goals
    first
      | · injection h with h1 h2
          exact h2 ▸ rfl
      | simp at h

/-- C10: once `poll_next` has yielded an error item — from a failed archive
task, a panicked task, or a read error — every later poll returns
end-of-stream: the stream never yields a second error or another byte chunk
after its terminal error. -/
theorem targz_stream_terminal (s s' : TarStreamState) (e : SurgeError)
    (h : poll_next s = (.ready (some (.error e)), s')) (n : Nat) :
    poll_next (pollIter n s') = (.ready none, pollIter n s') := by
  have hdone := poll_next_error_done s s' e h
  rw [pollIter_done n s' hdone]
  exact poll_next_done s' hdone

/-- Witness for C10: a stream whose task failed (while its reader still
holds a chunk) yields the error once, then only end-of-stream. -/
theorem targz_stream_terminal_witness :
    poll_next (pollIter 2 ⟨true, none, [.chunk 1]⟩) =
      (.ready none, pollIter 2 ⟨true, none, [.chunk 1]⟩) :=
  targz_stream_terminal sErr ⟨true, none, [.chunk 1]⟩ (.io "boom") rfl 2
